import Mathlib

/-!
Verification of the MCP Manager frontend (src/main.ts) against its
natural-language specification.  The TypeScript source is shallowly embedded:
JS strings are Lean `String`s (character-level operations work on the
underlying `List Char`), JS objects used as string maps are association lists
`List (String × key)`, exceptions are `Except`, and the Tauri backend invoke
boundary is abstracted as an explicitly passed response.
-/

namespace McpManager

/-- Characters removed by the JavaScript `String.prototype.trim` (ECMAScript
WhiteSpace and LineTerminator code points). -/
def isJsWhitespace (c : Char) : Bool :=
  c == ' ' || c == '\t' || c == '\n' || c == '\r' ||
  c.toNat == 0x0b || c.toNat == 0x0c || c.toNat == 0xa0 || c.toNat == 0xfeff ||
  c.toNat == 0x1680 || (0x2000 <= c.toNat && c.toNat <= 0x200a) ||
  c.toNat == 0x2028 || c.toNat == 0x2029 || c.toNat == 0x202f ||
  c.toNat == 0x205f || c.toNat == 0x3000

/-- `String.prototype.trim` on the character list: drop whitespace from both
ends. -/
def jsTrimL (l : List Char) : List Char :=
  ((l.dropWhile isJsWhitespace).reverse.dropWhile isJsWhitespace).reverse

/-- `value.trim()` on a JS string. -/
def jsTrim (s : String) : String :=
  String.mk (jsTrimL s.data)

/-- `str.split(' ')` (split on every single space character, keeping empty
fragments), as in main.ts line 758. -/
def splitSpaceL : List Char → List (List Char)
  | [] => [[]]
  | c :: rest =>
    match splitSpaceL rest with
    | [] => [[]]
    | h :: t => if c = ' ' then [] :: h :: t else (c :: h) :: t

/-- `args.join(' ')`, as used to display the arguments field
(main.ts line 672). -/
def joinSpaceL : List (List Char) → List Char
  | [] => []
  | [a] => a
  | a :: b :: t => a ++ ' ' :: joinSpaceL (b :: t)

/-- main.ts lines 757-758: `argsString = value.trim()` and
`args = argsString ? argsString.split(' ').filter(arg => arg.length > 0) : []`.
The empty string is the only falsy string. -/
def parseArgsL (raw : List Char) : List (List Char) :=
  let t := jsTrimL raw
  if t = [] then [] else (splitSpaceL t).filter (fun a => 0 < a.length)

/-- String-level wrapper of `parseArgsL`. -/
def parseArgs (raw : String) : List String :=
  (parseArgsL raw.data).map String.mk

/-- String-level wrapper of `joinSpaceL`. -/
def joinSpace (args : List String) : String :=
  String.mk (joinSpaceL (args.map String.data))

/-- First-match lookup in an association list keyed by strings; models reading
a property of a JS object used as a string map. -/
def lookupA {α : Type} : List (String × α) → String → Option α
  | [], _ => none
  | p :: rest, k => if p.1 = k then some p.2 else lookupA rest k

/-- Option fallback, used to state lookup facts about merged maps. -/
def orElseO {α : Type} (a b : Option α) : Option α :=
  match a with
  | some v => some v
  | none => b

/-- `[...new Set(l)]`: deduplication keeping the first occurrence of each
element, in order (main.ts line 424). `seen` accumulates elements already
emitted. -/
def jsSetDedupGo (seen : List String) : List String → List String
  | [] => []
  | x :: xs => if x ∈ seen then jsSetDedupGo seen xs else x :: jsSetDedupGo (x :: seen) xs

/-- `[...new Set(l)]` over a string list. -/
def jsSetDedup (l : List String) : List String :=
  jsSetDedupGo [] l

/-- interface SaveResult (main.ts lines 16-19). -/
structure SaveResult where
  success : Bool
  message : String
deriving DecidableEq

/-- interface McpServerEdit (main.ts lines 10-14): the payload sent to the
backend add/update commands; `env` is a JS object used as a string map. -/
structure McpServerEdit where
  command : String
  args : List String
  env : List (String × String)
deriving DecidableEq

/-- interface McpServerInfo (main.ts lines 3-8). -/
structure McpServerInfo where
  name : String
  command : String
  args : List String
  env : List (String × String)
deriving DecidableEq

/-- interface PresetServer (main.ts lines 21-31); `env`, `apiKeyName` and
`apiKeyDescription` are optional fields. -/
structure PresetServer where
  name : String
  description : String
  category : String
  command : String
  args : List String
  env : Option (List (String × String)) := none
  requiresApiKey : Bool
  apiKeyName : Option String := none
  apiKeyDescription : Option String := none
deriving DecidableEq

/-- The preset catalog PRESET_SERVERS (main.ts lines 48-125), transcribed
row by row in declaration order. -/
def PRESET_SERVERS : List PresetServer :=
  [ { name := "dice"
    , description := "Random dice rolling utility for games and decision making"
    , category := "Utilities"
    , command := "uvx"
    , args := ["mcp-dice"]
    , requiresApiKey := false }
  , { name := "time"
    , description := "Time and timezone utilities for scheduling and time management"
    , category := "Utilities"
    , command := "uvx"
    , args := ["mcp-server-time", "--local-timezone=UTC"]
    , requiresApiKey := false }
  , { name := "sequential-thinking"
    , description := "Enhanced reasoning capabilities for complex problem solving"
    , category := "AI Tools"
    , command := "docker"
    , args := ["run", "--rm", "-i", "mcp/sequentialthinking"]
    , requiresApiKey := false }
  , { name := "browsermcp"
    , description := "Web browsing capabilities for accessing and interacting with websites"
    , category := "Web Tools"
    , command := "npx"
    , args := ["@browsermcp/mcp@latest"]
    , requiresApiKey := false }
  , { name := "brave-search"
    , description := "Web search functionality using Brave Search API"
    , category := "Search"
    , command := "npx"
    , args := ["-y", "@modelcontextprotocol/server-brave-search"]
    , requiresApiKey := true
    , apiKeyName := some "BRAVE_API_KEY"
    , apiKeyDescription := some "Get your API key from https://brave.com/search/api/" }
  , { name := "openweather"
    , description := "Weather information and forecasts using OpenWeatherMap API"
    , category := "Weather"
    , command := "docker"
    , args := ["run", "-i", "--rm", "-e", "OWM_API_KEY", "mcp/openweather"]
    , requiresApiKey := true
    , apiKeyName := some "OWM_API_KEY"
    , apiKeyDescription := some "Get your API key from https://openweathermap.org/api" }
  , { name := "context7"
    , description := "Documentation search and code context analysis"
    , category := "Development"
    , command := "npx"
    , args := ["-y", "@upstash/context7-mcp@latest"]
    , requiresApiKey := false }
  , { name := "docker"
    , description := "Docker container management and operations"
    , category := "Development"
    , command := "uvx"
    , args := ["--from", "git+https://github.com/ckreiling/mcp-server-docker", "mcp-server-docker"]
    , requiresApiKey := false }
  , { name := "desktop-commander"
    , description := "Desktop automation and system control capabilities"
    , category := "System"
    , command := "docker"
    , args := ["run", "-i", "--rm", "mcp/desktop-commander"]
    , requiresApiKey := false } ]

/-- A user-visible outcome of a handler: every handler ends by rendering a
success message or an error message (`showNotification` with a title and a
body, or an error block). -/
inductive Report
  | success (title message : String)
  | failure (title message : String)
deriving DecidableEq

/-- JSON values, the abstract result of `JSON.parse`.  `JSON.stringify`
followed by `JSON.parse` is the identity at this level. -/
inductive Json
  | null
  | bool (b : Bool)
  | num (n : Int)
  | str (s : String)
  | arr (elems : List Json)
  | obj (fields : List (String × Json))

/-- Field lookup on the field list of a parsed JSON object. -/
def lookupJson : List (String × Json) → String → Option Json
  | [], _ => none
  | p :: rest, k => if p.1 = k then some p.2 else lookupJson rest k

/-- JS truthiness of a JSON value. -/
def jsTruthy : Json → Bool
  | Json.null => false
  | Json.bool b => b
  | Json.num n => n != 0
  | Json.str s => s != ""
  | Json.arr _ => true
  | Json.obj _ => true

/-- JS truthiness of a possibly-undefined value (`undefined` is falsy). -/
def jsTruthyOpt : Option Json → Bool
  | none => false
  | some j => jsTruthy j

/-- `typeof x === 'object'` for a possibly-undefined value: true for objects,
arrays and null. -/
def jsIsObjectOpt : Option Json → Bool
  | some Json.null => true
  | some (Json.arr _) => true
  | some (Json.obj _) => true
  | _ => false

/-- Property access `j.k` on a parsed JSON value: throws a TypeError on null
(modelled as `Except.error`), yields `undefined` (`none`) on primitives and
arrays, and looks the field up on objects. -/
def jsGetField (j : Json) (k : String) : Except String (Option Json) :=
  match j with
  | Json.null => Except.error "TypeError: cannot read properties of null"
  | Json.obj fields => Except.ok (lookupJson fields k)
  | _ => Except.ok none

/-- `Object.entries(x)`: fields of an object, index/value pairs of an array,
nothing for primitives. -/
def jsEntries : Json → List (String × Json)
  | Json.obj fields => fields
  | Json.arr elems => elems.enum.map (fun p => (toString p.1, p.2))
  | _ => []

/-- interface AppSettings (main.ts lines 38-41). -/
structure AppSettings where
  claudeConfigPath : String
  darkMode : Bool
deriving DecidableEq

/-- The module-level default settings (main.ts lines 43-46). -/
def defaultSettings : AppSettings :=
  { claudeConfigPath := "", darkMode := false }

/-- `JSON.stringify(appSettings)` (main.ts line 227), at the JSON-value
level. -/
def settingsToJson (s : AppSettings) : Json :=
  Json.obj [("claudeConfigPath", Json.str s.claudeConfigPath), ("darkMode", Json.bool s.darkMode)]

/-- The persistent settings slot `localStorage['mcp-manager-settings']`:
absent, or holding text whose `JSON.parse` result is the given value or a
parse failure. -/
def SettingsStore : Type :=
  Option (Except String Json)

/-- `saveSettings()` (main.ts lines 226-228): stores the serialized settings;
re-parsing text produced by `JSON.stringify` yields the same JSON value. -/
def saveSettings (s : AppSettings) : SettingsStore :=
  some (Except.ok (settingsToJson s))

/-- The merge `{ ...appSettings, ...JSON.parse(savedSettings) }`
(main.ts line 216): a field present in the parsed object (with the field's
recorded type, the only shape `saveSettings` ever writes) overrides the
default; an absent field keeps the default. -/
def mergeSettings (base : AppSettings) (j : Json) : AppSettings :=
  match j with
  | Json.obj fields =>
    { claudeConfigPath :=
        match lookupJson fields "claudeConfigPath" with
        | some (Json.str v) => v
        | _ => base.claudeConfigPath
    , darkMode :=
        match lookupJson fields "darkMode" with
        | some (Json.bool b) => b
        | _ => base.darkMode }
  | _ => base

/-- `loadSettings()` (main.ts lines 212-224): reads the slot; a missing slot
keeps the defaults, a parse failure is caught (warned) and keeps the
defaults, a parsed value is merged over the defaults. -/
def loadSettingsFrom (store : SettingsStore) : AppSettings :=
  match store with
  | none => defaultSettings
  | some (Except.error _) => defaultSettings
  | some (Except.ok j) => mergeSettings defaultSettings j

/-- `handleSettingsSubmit` (main.ts lines 291-305): trims the path field,
reads the dark-mode checkbox, saves, and always reports success. -/
def handleSettingsSubmit (pathRaw : String) (darkMode : Bool) : SettingsStore × Report :=
  (saveSettings { claudeConfigPath := jsTrim pathRaw, darkMode := darkMode },
   Report.success "Success" "Settings saved successfully!")

/-- Modelled from the spec: the Config Store backend (`src-tauri/src/lib.rs`,
reached through `invoke`) is not under src/.  Its state is the `mcpServers`
mapping of the ConfigDocument plus the single-slot Backup (spec sections 3
and 4.1). -/
structure StoreState where
  doc : List (String × McpServerEdit)
  backup : Option (List (String × McpServerEdit))
deriving DecidableEq

/-- Modelled from the spec: `add(path, name, edit)` fails with Conflict if
`name` already exists; otherwise inserts and writes, creating a Backup of the
pre-mutation document before writing (spec section 4.1). -/
def addServer (st : StoreState) (name : String) (d : McpServerEdit) : StoreState × SaveResult :=
  match lookupA st.doc name with
  | some _ => (st, { success := false, message := "Server " ++ name ++ " already exists" })
  | none =>
    ({ doc := st.doc ++ [(name, d)], backup := some st.doc },
     { success := true, message := "Server " ++ name ++ " added" })

/-- Modelled from the spec: `update(path, name, edit)` fails with NotFound if
`name` is absent; otherwise replaces the entry preserving the key, with
backup-before-write (spec section 4.1). -/
def updateServer (st : StoreState) (name : String) (d : McpServerEdit) : StoreState × SaveResult :=
  match lookupA st.doc name with
  | none => (st, { success := false, message := "Server " ++ name ++ " not found" })
  | some _ =>
    ({ doc := st.doc.map (fun p => if p.1 = name then (name, d) else p), backup := some st.doc },
     { success := true, message := "Server " ++ name ++ " updated" })

/-- Modelled from the spec: `delete(path, name)` fails with NotFound if
absent; otherwise removes the key, with backup-before-write
(spec section 4.1). -/
def deleteServer (st : StoreState) (name : String) : StoreState × SaveResult :=
  match lookupA st.doc name with
  | none => (st, { success := false, message := "Server " ++ name ++ " not found" })
  | some _ =>
    ({ doc := st.doc.filter (fun p => p.1 ≠ name), backup := some st.doc },
     { success := true, message := "Server " ++ name ++ " deleted" })

/-- Modelled from the spec: `restoreFromBackup(path)` overwrites the live
document with the last Backup's content, failing with NoBackup when none
exists (spec section 4.1). -/
def restoreFromBackup (st : StoreState) : StoreState × SaveResult :=
  match st.backup with
  | none => (st, { success := false, message := "No backup available" })
  | some b => ({ doc := b, backup := st.backup }, { success := true, message := "Backup restored" })

/-- JS object spread `{ ...d, ...s }` on string maps: the keys of `d` in
order (each taking the value from `s` when `s` also has the key), followed by
the keys of `s` not present in `d`. -/
def jsSpread (d s : List (String × String)) : List (String × String) :=
  (d.map (fun p =>
    match lookupA s p.1 with
    | some v => (p.1, v)
    | none => p)) ++
  s.filter (fun p => (lookupA d p.1).isNone)

/-- The ServerEntry built when installing a preset (main.ts lines 518-522):
`{ command: server.command, args: server.args, env: { ...server.env, ...env } }`.
An absent catalog `env` spreads nothing. -/
def toServerData (server : PresetServer) (env : List (String × String)) : McpServerEdit :=
  { command := server.command
  , args := server.args
  , env := jsSpread (server.env.getD []) env }

/-- The notification produced after the backend add during a preset install
(main.ts lines 527-533). -/
def installReport (server : PresetServer) (result : SaveResult) : Report :=
  if result.success then Report.success "Success" (server.name ++ " installed successfully!")
  else Report.failure "Installation Failed" result.message

/-- `performServerInstallation` (main.ts lines 517-537) composed with the
spec-modelled backend `add` (the `invoke("add_server", ...)` call): builds
the server data and passes it, under the preset's name, to the add
operation. -/
def performServerInstallation (st : StoreState) (server : PresetServer)
    (env : List (String × String)) : StoreState × Report :=
  let res := addServer st server.name (toServerData server env)
  (res.1, installReport server res.2)

/-- `PRESET_SERVERS.find(s => s.name === serverName)`
(main.ts line 502). -/
def getPresetByName (serverName : String) : Option PresetServer :=
  PRESET_SERVERS.find? (fun s => s.name == serverName)

/-- JS truthiness of the optional `apiKeyName` field. -/
def jsTruthyStrOpt : Option String → Bool
  | none => false
  | some v => v != ""

/-- What `installPresetServer` does next for a given preset name. -/
inductive InstallStep
  | presetMissing (msg : String)
  | apiKeyPrompt (server : PresetServer)
  | completed (report : Report)
deriving DecidableEq

/-- `installPresetServer` (main.ts lines 501-515) composed with the
spec-modelled backend: unknown name reports an error and touches nothing; a
preset requiring an API key opens the key prompt; otherwise the preset is
installed directly with no supplied secrets. -/
def installPresetServer (st : StoreState) (serverName : String) : StoreState × InstallStep :=
  match getPresetByName serverName with
  | none => (st, InstallStep.presetMissing ("Server " ++ serverName ++ " not found in presets"))
  | some server =>
    if server.requiresApiKey && jsTruthyStrOpt server.apiKeyName then
      (st, InstallStep.apiKeyPrompt server)
    else
      let res := performServerInstallation st server []
      (res.1, InstallStep.completed res.2)

/-- `getCurrentServerNames` (main.ts lines 494-499): reads no state and
returns the empty list; the app state is taken as a parameter only to state
that the result is the same for every state. -/
def getCurrentServerNames (_doc : List (String × McpServerEdit)) : List String :=
  []

/-- `PRESET_SERVERS.filter(server => !currentServers.includes(server.name))`
(main.ts line 421). -/
def availableServers (currentNames : List String) : List PresetServer :=
  PRESET_SERVERS.filter (fun server => !(currentNames.contains server.name))

/-- `[...new Set(availableServers.map(server => server.category))]`
(main.ts line 424). -/
def categoriesOf (available : List PresetServer) : List String :=
  jsSetDedup (available.map (fun server => server.category))

/-- Modelled from the spec: no `kinds()` operation and no server-kind field
exist under src/ (the spec's section 6 command contract lists
`listPresetKinds()` among the backend commands, outside src/).  Per the spec,
the server-kind tag is "how it's launched, e.g. by package runner vs.
container", which in this catalog is the launcher command (`uvx`, `npx`,
`docker`). -/
def presetKind (server : PresetServer) : String :=
  server.command

/-- Modelled from the spec: `kinds()` is derived by projecting the catalog,
not separately stored (spec section 4.2). -/
def kindsOf (available : List PresetServer) : List String :=
  jsSetDedup (available.map presetKind)

/-- The category list the quick-install modal computes for the current app
state (main.ts lines 420-424). -/
def quickInstallCategories (doc : List (String × McpServerEdit)) : List String :=
  categoriesOf (availableServers (getCurrentServerNames doc))

/-- Assignment `env[key] = value` on a JS object used as a string map: an
existing key keeps its position and gets the new value, a new key is
appended. -/
def jsAssign (acc : List (String × String)) (k v : String) : List (String × String) :=
  if (lookupA acc k).isSome then
    acc.map (fun p => if p.1 = k then (k, v) else p)
  else
    acc ++ [(k, v)]

/-- One iteration of the environment-variable collection loop of
`handleFormSubmit` (main.ts lines 763-769): the row's key and value are
trimmed and the row is stored only when both are non-empty
(`if (key && value) env[key] = value`). -/
def collectStep (acc : List (String × String)) (row : String × String) : List (String × String) :=
  let k := jsTrim row.1
  let v := jsTrim row.2
  if k ≠ "" ∧ v ≠ "" then jsAssign acc k v else acc

/-- The environment-variable collection of `handleFormSubmit`
(main.ts lines 761-769), starting from the empty object. -/
def collectEnv (rows : List (String × String)) : List (String × String) :=
  rows.foldl collectStep []

/-- The rows that survive the collection filter, trimmed, in order: used to
state which value `collectEnv` ends up storing for each key. -/
def validRows (rows : List (String × String)) : List (String × String) :=
  rows.filterMap
    (fun row =>
      let k := jsTrim row.1
      let v := jsTrim row.2
      if k ≠ "" ∧ v ≠ "" then some (k, v) else none)

/-- Lookup of the last binding of a key in an association list. -/
def lastLookup (l : List (String × String)) (k : String) : Option String :=
  lookupA l.reverse k

/-- The state of the add/edit server form at submit time: the raw field
texts and the env rows (key input, value input) in document order. -/
structure FormInput where
  nameRaw : String
  commandRaw : String
  argsRaw : String
  envRows : List (String × String)

/-- The backend call `handleFormSubmit` makes when validation passes
(main.ts lines 784-788). -/
inductive FormAction
  | update (name : String) (serverData : McpServerEdit)
  | add (name : String) (serverData : McpServerEdit)
deriving DecidableEq

/-- The payload of a form action. -/
def FormAction.serverData : FormAction → McpServerEdit
  | FormAction.update _ d => d
  | FormAction.add _ d => d

/-- The pure front part of `handleFormSubmit` (main.ts lines 749-788): trims
name and command, parses the arguments field, collects the env rows, and
either rejects (empty trimmed name or command, `none`) or produces the
update/add call the code then invokes. -/
def buildFormAction (editing : Option String) (f : FormInput) : Option FormAction :=
  let name := jsTrim f.nameRaw
  let command := jsTrim f.commandRaw
  let args := parseArgs f.argsRaw
  let env := collectEnv f.envRows
  if name = "" ∨ command = "" then none
  else
    some (match editing with
      | some editName => FormAction.update editName { command := command, args := args, env := env }
      | none => FormAction.add name { command := command, args := args, env := env })

/-- `handleFormSubmit` (main.ts lines 749-800) with the backend response
abstracted: validation failure notifies without invoking; an invoke response
is rendered as a success or error notification; a thrown invoke error is
caught and rendered.  The outer `Except` is an uncaught JS exception. -/
def handleFormSubmit (editing : Option String) (f : FormInput)
    (respond : FormAction → Except String SaveResult) : Except String Report :=
  match buildFormAction editing f with
  | none => Except.ok (Report.failure "Validation Error" "Please fill in all required fields")
  | some act =>
    match respond act with
    | Except.ok r =>
      Except.ok (if r.success then Report.success "Success" r.message else Report.failure "Error" r.message)
    | Except.error e => Except.ok (Report.failure "Error" ("Error saving server: " ++ e))

/-- What `loadMcpServers` renders. -/
inductive LoadOutcome
  | display (servers : List McpServerInfo)
  | errorHtml (msg : String)
deriving DecidableEq

/-- `loadMcpServers` (main.ts lines 307-317) with the backend response
abstracted: a successful parse is displayed, a thrown error is caught and
rendered into the list element. -/
def loadMcpServersHandle (resp : Except String (List McpServerInfo)) : Except String LoadOutcome :=
  match resp with
  | Except.ok servers => Except.ok (LoadOutcome.display servers)
  | Except.error e => Except.ok (LoadOutcome.errorHtml ("Error loading MCP servers: " ++ e))

/-- The confirmed branch of `deleteServer` (main.ts lines 389-401) with the
backend response abstracted. -/
def deleteServerHandle (resp : Except String SaveResult) : Except String Report :=
  match resp with
  | Except.ok r =>
    Except.ok (if r.success then Report.success "Success" r.message else Report.failure "Error" r.message)
  | Except.error e => Except.ok (Report.failure "Error" ("Error deleting server: " ++ e))

/-- `performServerInstallation`'s response handling alone
(main.ts lines 524-536), with the backend response abstracted. -/
def performInstallHandle (server : PresetServer) (resp : Except String SaveResult) :
    Except String Report :=
  match resp with
  | Except.ok r => Except.ok (installReport server r)
  | Except.error e =>
    Except.ok (Report.failure "Installation Error" ("Failed to install " ++ server.name ++ ": " ++ e))

/-- A JS exception reaching `handleImportSubmit`'s outer catch: either a
`SyntaxError` from `JSON.parse` or any other error. -/
inductive JsErr
  | syntaxErr (msg : String)
  | otherErr (msg : String)

/-- The target-selection part of `handleImportSubmit` (main.ts lines
815-832): a truthy object-typed `mcpServers` field selects its entries; else
a truthy `command` field selects the single-server path (requiring the name
field); else validation fails.  `Except.error` is a thrown property access
on null, caught further out. -/
def importTargets (name : String) (jsonData : Json) :
    Except String (Sum Report (List (String × Json))) :=
  match jsGetField jsonData "mcpServers" with
  | Except.error m => Except.error m
  | Except.ok mcpOpt =>
    if jsTruthyOpt mcpOpt && jsIsObjectOpt mcpOpt then
      Except.ok (Sum.inr (jsEntries (mcpOpt.getD Json.null)))
    else
      match jsGetField jsonData "command" with
      | Except.error m => Except.error m
      | Except.ok cmdOpt =>
        if jsTruthyOpt cmdOpt then
          if name = "" then
            Except.ok (Sum.inl (Report.failure "Validation Error"
              "Please provide a server name for the individual server configuration"))
          else Except.ok (Sum.inr [(name, jsonData)])
        else
          Except.ok (Sum.inl (Report.failure "Validation Error"
            "JSON must contain either mcpServers object or a server configuration with command field"))

/-- Outcome of one iteration of the import loop. -/
inductive ImportItemResult
  | imported
  | failed (msg : String)
deriving DecidableEq

/-- One iteration of the import loop (main.ts lines 838-868): a missing or
falsy `command` is reported and skipped; `args` defaults to `[]` unless an
array, `env` defaults to `{}` unless a non-null object; the add call's
failure or thrown error is caught and recorded.  The iteration's own
try/catch also absorbs a property access thrown on a null config. -/
def importOne (serverName : String) (cfg : Json)
    (respond : String → Json → Json → Json → Except String SaveResult) : ImportItemResult :=
  match jsGetField cfg "command" with
  | Except.error m => ImportItemResult.failed ("Server " ++ serverName ++ ": " ++ m)
  | Except.ok cmdOpt =>
    if !(jsTruthyOpt cmdOpt) then
      ImportItemResult.failed ("Server " ++ serverName ++ ": missing command field")
    else
      match jsGetField cfg "args", jsGetField cfg "env" with
      | Except.error m, _ => ImportItemResult.failed ("Server " ++ serverName ++ ": " ++ m)
      | _, Except.error m => ImportItemResult.failed ("Server " ++ serverName ++ ": " ++ m)
      | Except.ok argsOpt, Except.ok envOpt =>
        let command := cmdOpt.getD Json.null
        let args := match argsOpt with
          | some (Json.arr elems) => Json.arr elems
          | _ => Json.arr []
        let env := match envOpt with
          | some (Json.obj fields) => Json.obj fields
          | some (Json.arr elems) => Json.arr elems
          | _ => Json.obj []
        match respond serverName command args env with
        | Except.ok r =>
          if r.success then ImportItemResult.imported
          else ImportItemResult.failed ("Server " ++ serverName ++ ": " ++ r.message)
        | Except.error e => ImportItemResult.failed ("Server " ++ serverName ++ ": " ++ e)

/-- The results summary of the import loop (main.ts lines 870-880). -/
def assembleImportReport (results : List ImportItemResult) : Report :=
  let successCount := (results.filter (fun r => r = ImportItemResult.imported)).length
  let errs := results.filterMap
    (fun r => match r with
      | ImportItemResult.failed m => some m
      | ImportItemResult.imported => none)
  let message :=
    (if 0 < successCount then "Successfully imported " ++ toString successCount ++ " server(s)." else "") ++
    (if errs.isEmpty then "" else " Errors: " ++ String.intercalate "; " errs)
  if 0 < successCount then Report.success "Import Results" message
  else Report.failure "Import Failed" message

/-- `handleImportSubmit` (main.ts lines 802-894): empty JSON text fails
validation; a parse failure (or any other thrown error) is caught and
rendered as a JSON or import error; otherwise the targets are selected and
each is imported, the summary notified.  The outer `Except` is an uncaught
JS exception. -/
def handleImportSubmit (nameField jsonField : String) (parsed : Except JsErr Json)
    (respond : String → Json → Json → Json → Except String SaveResult) : Except String Report :=
  let name := jsTrim nameField
  let jsonInput := jsTrim jsonField
  if jsonInput = "" then
    Except.ok (Report.failure "Validation Error" "Please provide JSON configuration")
  else
    match parsed with
    | Except.error (JsErr.syntaxErr _) =>
      Except.ok (Report.failure "JSON Error" "Invalid JSON format. Please check your JSON syntax.")
    | Except.error (JsErr.otherErr m) =>
      Except.ok (Report.failure "Import Error" ("Error importing server: " ++ m))
    | Except.ok jsonData =>
      match importTargets name jsonData with
      | Except.error m =>
        Except.ok (Report.failure "Import Error" ("Error importing server: " ++ m))
      | Except.ok (Sum.inl report) => Except.ok report
      | Except.ok (Sum.inr targets) =>
        Except.ok (assembleImportReport (targets.map (fun t => importOne t.1 t.2 respond)))

/-! ## Helper lemmas -/

theorem orElseO_none {α : Type} (a : Option α) : orElseO a none = a := by
  cases a <;> rfl

theorem orElseO_assoc {α : Type} (a b c : Option α) :
    orElseO (orElseO a b) c = orElseO a (orElseO b c) := by
  cases a <;> rfl

theorem lookupA_append {α : Type} (a b : List (String × α)) (k : String) :
    lookupA (a ++ b) k = orElseO (lookupA a k) (lookupA b k) := by
  induction a with
  | nil => rfl
  | cons p rest ih =>
    by_cases h : p.1 = k
    · simp [lookupA, h, orElseO]
    · simp [lookupA, h, ih]

theorem lookupA_singleton {α : Type} (k0 k : String) (v : α) :
    lookupA [(k0, v)] k = if k0 = k then some v else none := rfl

theorem lookupA_eq_none_iff {α : Type} (l : List (String × α)) (k : String) :
    lookupA l k = none ↔ ∀ p ∈ l, p.1 ≠ k := by
  induction l with
  | nil => simp [lookupA]
  | cons p rest ih =>
    by_cases h : p.1 = k
    · simp [lookupA, h]
    · simp [lookupA, h, ih]

theorem mem_jsSetDedupGo (a : String) : ∀ (l seen : List String),
    a ∈ jsSetDedupGo seen l ↔ a ∈ l ∧ a ∉ seen := by
  intro l
  induction l with
  | nil => intro seen; simp [jsSetDedupGo]
  | cons x xs ih =>
    intro seen
    by_cases hx : x ∈ seen
    · rw [jsSetDedupGo, if_pos hx, ih]
      constructor
      · rintro ⟨hm, hs⟩; exact ⟨List.mem_cons_of_mem _ hm, hs⟩
      · rintro ⟨hm, hs⟩
        rcases List.mem_cons.mp hm with rfl | hm2
        · exact absurd hx hs
        · exact ⟨hm2, hs⟩
    · rw [jsSetDedupGo, if_neg hx]
      constructor
      · intro hm
        rcases List.mem_cons.mp hm with rfl | hm2
        · exact ⟨List.mem_cons_self _ _, hx⟩
        · rcases (ih (x :: seen)).mp hm2 with ⟨h1, h2⟩
          refine ⟨List.mem_cons_of_mem _ h1, fun hs => h2 (List.mem_cons_of_mem _ hs)⟩
      · rintro ⟨hm, hs⟩
        rcases List.mem_cons.mp hm with rfl | hm2
        · exact List.mem_cons_self _ _
        · by_cases hax : a = x
          · subst hax; exact List.mem_cons_self _ _
          · exact List.mem_cons_of_mem _
              ((ih (x :: seen)).mpr ⟨hm2, fun hmem => by
                rcases List.mem_cons.mp hmem with h | h
                · exact hax h
                · exact hs h⟩)

theorem mem_jsSetDedup (a : String) (l : List String) :
    a ∈ jsSetDedup l ↔ a ∈ l := by
  rw [jsSetDedup, mem_jsSetDedupGo]
  simp

theorem lookupA_map_override (s : List (String × String)) (k : String) :
    ∀ d : List (String × String),
    lookupA (d.map (fun p =>
      match lookupA s p.1 with
      | some v => (p.1, v)
      | none => p)) k =
    (lookupA d k).map (fun w => (lookupA s k).getD w) := by
  intro d
  induction d with
  | nil => rfl
  | cons p rest ih =>
    by_cases h : p.1 = k
    · subst h
      cases hs : lookupA s p.1 <;> simp [lookupA, hs]
    · cases hs : lookupA s p.1 <;> simp [lookupA, hs, h, ih]

theorem lookupA_filter_isNone (d : List (String × String)) (k : String) :
    ∀ s : List (String × String),
    lookupA (s.filter (fun p => (lookupA d p.1).isNone)) k =
    if (lookupA d k).isNone then lookupA s k else none := by
  intro s
  induction s with
  | nil => simp [lookupA]
  | cons p rest ih =>
    by_cases h : p.1 = k
    · subst h
      cases hd : lookupA d p.1 <;> simp [lookupA, List.filter, hd, ih]
    · cases hp : (lookupA d p.1).isNone <;> simp [lookupA, List.filter, hp, h, ih]

theorem lookupA_jsSpread (d s : List (String × String)) (k : String) :
    lookupA (jsSpread d s) k = orElseO (lookupA s k) (lookupA d k) := by
  rw [jsSpread, lookupA_append, lookupA_map_override, lookupA_filter_isNone]
  cases hd : lookupA d k <;> cases hs : lookupA s k <;> simp [orElseO, hd, hs]

/-! ## Claim theorems -/

/-- C1: installing a preset builds exactly the server entry
`{command: def.command, arguments: def.arguments,
environment: def.defaultEnvironment ∪ suppliedSecrets}` with a supplied
secret overriding a default on key collision (the spec's concrete example
included), and passes precisely that entry to the add operation; the
construction `toServerData` is a pure function of the preset definition and
the supplied secrets. -/
theorem C1_presetInstallEntry :
    (∀ (server : PresetServer) (secrets : List (String × String)),
      (toServerData server secrets).command = server.command ∧
      (toServerData server secrets).args = server.args) ∧
    (∀ (server : PresetServer) (secrets : List (String × String)) (k : String),
      lookupA (toServerData server secrets).env k =
        orElseO (lookupA secrets k) (lookupA (server.env.getD []) k)) ∧
    (toServerData
      { name := "example", description := "", category := "", command := "npx"
      , args := ["-y", "pkg"], env := some [("A", "1")], requiresApiKey := false }
      [("A", "2"), ("B", "3")]).env = [("A", "2"), ("B", "3")] ∧
    (∀ (st : StoreState) (server : PresetServer) (secrets : List (String × String)),
      performServerInstallation st server secrets =
        ((addServer st server.name (toServerData server secrets)).1,
         installReport server (addServer st server.name (toServerData server secrets)).2)) := by
  refine ⟨fun server secrets => ⟨rfl, rfl⟩, fun server secrets k => ?_, by decide, fun st server secrets => rfl⟩
  exact lookupA_jsSpread _ _ _

/-- C5: AppSettings round-trips through its own persistent store (the
dedicated localStorage slot, independent of the ConfigDocument): saving then
loading yields the same value; the persisted shape is the JSON object
`{claudeConfigPath: string, darkMode: boolean}`; defaults are merged in only
for absent fields. -/
theorem C5_settingsRoundTrip :
    (∀ s : AppSettings, loadSettingsFrom (saveSettings s) = s) ∧
    (∀ s : AppSettings, settingsToJson s =
      Json.obj [("claudeConfigPath", Json.str s.claudeConfigPath),
                ("darkMode", Json.bool s.darkMode)]) ∧
    loadSettingsFrom none = defaultSettings ∧
    loadSettingsFrom (some (Except.ok (Json.obj []))) = defaultSettings ∧
    loadSettingsFrom (some (Except.ok (Json.obj [("darkMode", Json.bool true)]))) =
      { claudeConfigPath := "", darkMode := true } ∧
    (∀ (pathRaw : String) (darkMode : Bool),
      loadSettingsFrom (handleSettingsSubmit pathRaw darkMode).1 =
        { claudeConfigPath := jsTrim pathRaw, darkMode := darkMode }) := by
  refine ⟨fun s => ?_, fun s => rfl, rfl, by decide, by decide, fun pathRaw darkMode => ?_⟩
  · cases s; rfl
  · rfl

/-- C3: the sets returned by categories() and kinds() are each exactly the
projection of the preset catalog rows (neither is stored separately, so they
cannot diverge from the rows); the value actually computed by the
quick-install modal equals the distinct categories of the full catalog, and
the spec-modelled kinds projection yields the catalog's distinct launch
mechanisms. -/
theorem C3_categoryKindProjection :
    (∀ (rows : List PresetServer) (c : String),
      c ∈ categoriesOf rows ↔ c ∈ rows.map (fun s => s.category)) ∧
    (∀ (rows : List PresetServer) (k : String),
      k ∈ kindsOf rows ↔ k ∈ rows.map presetKind) ∧
    (∀ doc, quickInstallCategories doc =
      ["Utilities", "AI Tools", "Web Tools", "Search", "Weather", "Development", "System"]) ∧
    kindsOf PRESET_SERVERS = ["uvx", "docker", "npx"] := by
  refine ⟨fun rows c => mem_jsSetDedup _ _, fun rows k => mem_jsSetDedup _ _,
    fun doc => rfl, by decide⟩

/-- C6: every failure arising in load, add/update (form submit), delete,
preset install, import or settings handling is returned as data — each
handler terminates with `Except.ok` of a rendered report for every input,
never propagating an exception — and a thrown backend error is rendered as
an error report. -/
theorem C6_failuresAsData :
    (∀ resp, ∃ o, loadMcpServersHandle resp = Except.ok o) ∧
    (∀ e, loadMcpServersHandle (Except.error e) =
      Except.ok (LoadOutcome.errorHtml ("Error loading MCP servers: " ++ e))) ∧
    (∀ server resp, ∃ r, performInstallHandle server resp = Except.ok r) ∧
    (∀ server e, performInstallHandle server (Except.error e) =
      Except.ok (Report.failure "Installation Error"
        ("Failed to install " ++ server.name ++ ": " ++ e))) ∧
    (∀ editing f respond, ∃ r, handleFormSubmit editing f respond = Except.ok r) ∧
    (∀ resp, ∃ r, deleteServerHandle resp = Except.ok r) ∧
    (∀ nameField jsonField parsed respond,
      ∃ r, handleImportSubmit nameField jsonField parsed respond = Except.ok r) ∧
    (∀ e, loadSettingsFrom (some (Except.error e)) = defaultSettings) ∧
    (∀ (pathRaw : String) (darkMode : Bool),
      ∃ m, (handleSettingsSubmit pathRaw darkMode).2 = Report.success "Success" m) := by
  refine ⟨?_, fun e => rfl, ?_, fun server e => rfl, ?_, ?_, ?_, fun e => rfl,
    fun pathRaw darkMode => ⟨_, rfl⟩⟩
  · intro resp; cases resp <;> exact ⟨_, rfl⟩
  · intro server resp; cases resp <;> exact ⟨_, rfl⟩
  · intro editing f respond
    rw [handleFormSubmit]
    split
    · exact ⟨_, rfl⟩
    · split <;> exact ⟨_, rfl⟩
  · intro resp; cases resp <;> exact ⟨_, rfl⟩
  · intro nameField jsonField parsed respond
    rw [handleImportSubmit.eq_def]
    by_cases hj : jsTrim jsonField = ""
    · rw [if_pos hj]; exact ⟨_, rfl⟩
    · rw [if_neg hj]
      split
      · exact ⟨_, rfl⟩
      · exact ⟨_, rfl⟩
      · split <;> exact ⟨_, rfl⟩

/-- C2: a form submission whose trimmed name or trimmed command is empty
invokes no add or update operation (the outcome is the same validation-error
notification for every backend respond function, so the document is never
written); when both are non-empty, an empty arguments field and an absent
env row list default to the empty list and the empty map. -/
theorem C2_formValidation :
    (∀ editing f respond, (jsTrim f.nameRaw = "" ∨ jsTrim f.commandRaw = "") →
      buildFormAction editing f = none ∧
      handleFormSubmit editing f respond =
        Except.ok (Report.failure "Validation Error" "Please fill in all required fields")) ∧
    (∀ editing f, jsTrim f.nameRaw ≠ "" → jsTrim f.commandRaw ≠ "" →
      f.argsRaw = "" → f.envRows = [] →
      ∃ act, buildFormAction editing f = some act ∧
        act.serverData = { command := jsTrim f.commandRaw, args := [], env := [] }) := by
  constructor
  · intro editing f respond h
    have hb : buildFormAction editing f = none := by
      rw [buildFormAction.eq_def]; exact if_pos h
    exact ⟨hb, by rw [handleFormSubmit, hb]⟩
  · intro editing f hn hc hargs henv
    have hb : buildFormAction editing f =
        some (match editing with
          | some editName => FormAction.update editName
              { command := jsTrim f.commandRaw, args := parseArgs f.argsRaw, env := collectEnv f.envRows }
          | none => FormAction.add (jsTrim f.nameRaw)
              { command := jsTrim f.commandRaw, args := parseArgs f.argsRaw, env := collectEnv f.envRows }) := by
      rw [buildFormAction.eq_def]
      exact if_neg (by simp [hn, hc])
    rw [hargs, henv] at hb
    cases editing <;> exact ⟨_, hb, rfl⟩

/-- Witness for C2 at concrete inputs: a blank name blocks the write for an
arbitrary backend, and a minimal valid form defaults arguments and
environment to empty. -/
theorem C2_formValidation_witness :
    (buildFormAction none { nameRaw := " ", commandRaw := "npx", argsRaw := "", envRows := [] } = none ∧
     handleFormSubmit none { nameRaw := " ", commandRaw := "npx", argsRaw := "", envRows := [] }
       (fun _ => Except.ok { success := true, message := "ok" }) =
       Except.ok (Report.failure "Validation Error" "Please fill in all required fields")) ∧
    (∃ act, buildFormAction none { nameRaw := "srv", commandRaw := "npx", argsRaw := "", envRows := [] } =
        some act ∧ act.serverData = { command := "npx", args := [], env := [] }) := by
  constructor
  · exact C2_formValidation.1 none
      { nameRaw := " ", commandRaw := "npx", argsRaw := "", envRows := [] }
      (fun _ => Except.ok { success := true, message := "ok" }) (Or.inl (by decide))
  · obtain ⟨act, h1, h2⟩ := C2_formValidation.2 none
      { nameRaw := "srv", commandRaw := "npx", argsRaw := "", envRows := [] }
      (by decide) (by decide) rfl rfl
    exact ⟨act, h1, h2.trans (by decide)⟩

theorem find_name_of_mem_nodup :
    ∀ (l : List PresetServer) (row : PresetServer),
    (l.map (fun s => s.name)).Nodup → row ∈ l →
    l.find? (fun s => s.name == row.name) = some row := by
  intro l
  induction l with
  | nil => intro row _ hmem; cases hmem
  | cons x xs ih =>
    intro row hnd hmem
    rw [List.map_cons, List.nodup_cons] at hnd
    rcases List.mem_cons.mp hmem with rfl | h
    · simp [List.find?]
    · have hx : (x.name == row.name) = false := by
        simp only [beq_eq_false_iff_ne, ne_eq]
        intro he
        exact hnd.1 (he ▸ List.mem_map_of_mem (fun s => s.name) h)
      simp only [List.find?, hx]
      exact ih row hnd.2 h

/-- C4: preset lookup by name returns the unique catalog row with that name
when one exists and nothing otherwise; with no row, the install operation
only reports that the preset was not found and leaves the state (hence the
configuration document) untouched. -/
theorem C4_presetLookup :
    (∀ name row, getPresetByName name = some row → row ∈ PRESET_SERVERS ∧ row.name = name) ∧
    (∀ row, row ∈ PRESET_SERVERS → getPresetByName row.name = some row) ∧
    (∀ name, getPresetByName name = none →
      (∀ row, row ∈ PRESET_SERVERS → row.name ≠ name) ∧
      (∀ st, installPresetServer st name =
        (st, InstallStep.presetMissing ("Server " ++ name ++ " not found in presets")))) := by
  refine ⟨?_, ?_, ?_⟩
  · intro name row h
    refine ⟨List.mem_of_find?_eq_some h, ?_⟩
    have := List.find?_some h
    exact beq_iff_eq.mp (by simpa using this)
  · intro row hmem
    exact find_name_of_mem_nodup PRESET_SERVERS row (by decide) hmem
  · intro name h
    constructor
    · intro row hmem he
      have := List.find?_eq_none.mp h row hmem
      exact this (by simp [he])
    · intro st
      rw [installPresetServer, h]

/-- Witness for C4: the catalog row named dice is found and returned, and an
unknown preset name leads to the not-found report with the store state
unchanged. -/
theorem C4_presetLookup_witness :
    (getPresetByName "dice" = some
      { name := "dice"
      , description := "Random dice rolling utility for games and decision making"
      , category := "Utilities"
      , command := "uvx"
      , args := ["mcp-dice"]
      , requiresApiKey := false }) ∧
    installPresetServer { doc := [], backup := none } "nope" =
      ({ doc := [], backup := none },
       InstallStep.presetMissing ("Server " ++ "nope" ++ " not found in presets")) := by
  constructor
  · exact C4_presetLookup.2.1
      { name := "dice"
      , description := "Random dice rolling utility for games and decision making"
      , category := "Utilities"
      , command := "uvx"
      , args := ["mcp-dice"]
      , requiresApiKey := false } (by decide)
  · exact (C4_presetLookup.2.2 "nope" (by decide)).2 { doc := [], backup := none }

theorem lookupA_filter_ne {α : Type} (k : String) :
    ∀ l : List (String × α), lookupA (l.filter (fun p => p.1 ≠ k)) k = none := by
  intro l
  induction l with
  | nil => rfl
  | cons p rest ih =>
    by_cases h : p.1 = k
    · simpa [List.filter_cons, h] using ih
    · simpa [List.filter_cons, lookupA, h] using ih

/-- C7: after every successful add, update or delete, the Backup slot holds
exactly the document state immediately prior to the mutation, and restoring
from backup after a destructive delete recovers the deleted entry. -/
theorem C7_backupBeforeWrite :
    (∀ st name d, (addServer st name d).2.success = true →
      (addServer st name d).1.backup = some st.doc) ∧
    (∀ st name d, (updateServer st name d).2.success = true →
      (updateServer st name d).1.backup = some st.doc) ∧
    (∀ st name, (deleteServer st name).2.success = true →
      (deleteServer st name).1.backup = some st.doc) ∧
    (∀ st name e, lookupA st.doc name = some e →
      (deleteServer st name).2.success = true ∧
      lookupA ((deleteServer st name).1).doc name = none ∧
      (restoreFromBackup (deleteServer st name).1).1.doc = st.doc ∧
      lookupA ((restoreFromBackup (deleteServer st name).1).1).doc name = some e) := by
  refine ⟨?_, ?_, ?_, ?_⟩
  · intro st name d h
    cases hl : lookupA st.doc name
    · simp [addServer.eq_def, hl]
    · rw [addServer.eq_def, hl] at h
      simp at h
  · intro st name d h
    cases hl : lookupA st.doc name
    · rw [updateServer.eq_def, hl] at h
      simp at h
    · simp [updateServer.eq_def, hl]
  · intro st name h
    cases hl : lookupA st.doc name
    · rw [deleteServer.eq_def, hl] at h
      simp at h
    · simp [deleteServer.eq_def, hl]
  · intro st name e h
    have h2 : (deleteServer st name).1 =
        { doc := st.doc.filter (fun p => p.1 ≠ name), backup := some st.doc } := by
      rw [deleteServer.eq_def, h]
    refine ⟨?_, ?_, ?_, ?_⟩
    · simp [deleteServer.eq_def, h]
    · rw [h2]; exact lookupA_filter_ne name st.doc
    · rw [h2]; rfl
    · rw [h2]; exact h

/-- Witness for C7: deleting the only entry of a concrete document backs up
the pre-delete state and restoring recovers the entry. -/
theorem C7_backupBeforeWrite_witness :
    (deleteServer
      { doc := [("x", { command := "npx", args := [], env := [] })], backup := none }
      "x").2.success = true ∧
    lookupA ((deleteServer
      { doc := [("x", { command := "npx", args := [], env := [] })], backup := none }
      "x").1).doc "x" = none ∧
    (restoreFromBackup (deleteServer
      { doc := [("x", { command := "npx", args := [], env := [] })], backup := none }
      "x").1).1.doc = [("x", { command := "npx", args := [], env := [] })] ∧
    lookupA ((restoreFromBackup (deleteServer
      { doc := [("x", { command := "npx", args := [], env := [] })], backup := none }
      "x").1).1).doc "x" = some { command := "npx", args := [], env := [] } :=
  C7_backupBeforeWrite.2.2.2
    { doc := [("x", { command := "npx", args := [], env := [] })], backup := none }
    "x" { command := "npx", args := [], env := [] } (by decide)

/-- C8: the quick-install availability filter is vacuous —
`getCurrentServerNames` returns the empty list for every state, so the
offered presets are the whole catalog in declaration order; a preset already
present in the document (dice) is still offered, and installing it then
yields the add operation's duplicate-handling outcome with the document
unchanged. -/
theorem C8_vacuousInstallFilter :
    (∀ doc, getCurrentServerNames doc = []) ∧
    (∀ doc, availableServers (getCurrentServerNames doc) = PRESET_SERVERS) ∧
    (∀ (st : StoreState) (d : McpServerEdit), lookupA st.doc "dice" = some d →
      (∃ row, row ∈ availableServers (getCurrentServerNames st.doc) ∧ row.name = "dice") ∧
      (installPresetServer st "dice").1 = st ∧
      (installPresetServer st "dice").2 =
        InstallStep.completed (Report.failure "Installation Failed"
          ("Server " ++ "dice" ++ " already exists"))) := by
  refine ⟨fun doc => rfl, fun doc => rfl, ?_⟩
  intro st d h
  have hfind : getPresetByName "dice" = some
      { name := "dice"
      , description := "Random dice rolling utility for games and decision making"
      , category := "Utilities"
      , command := "uvx"
      , args := ["mcp-dice"]
      , requiresApiKey := false } := by decide
  constructor
  · have hm : ({ name := "dice", description := "Random dice rolling utility for games and decision making", category := "Utilities", command := "uvx", args := ["mcp-dice"], requiresApiKey := false } : PresetServer) ∈ availableServers [] := by decide
    exact ⟨_, hm, rfl⟩
  · have hstep : installPresetServer st "dice" =
        ((addServer st "dice" (toServerData { name := "dice", description := "Random dice rolling utility for games and decision making", category := "Utilities", command := "uvx", args := ["mcp-dice"], requiresApiKey := false } [])).1,
         InstallStep.completed (installReport { name := "dice", description := "Random dice rolling utility for games and decision making", category := "Utilities", command := "uvx", args := ["mcp-dice"], requiresApiKey := false }
           (addServer st "dice" (toServerData { name := "dice", description := "Random dice rolling utility for games and decision making", category := "Utilities", command := "uvx", args := ["mcp-dice"], requiresApiKey := false } [])).2)) := rfl
    rw [hstep, addServer.eq_def, h]
    exact ⟨rfl, rfl⟩

/-- Witness for C8: with dice already in a concrete document, it is still
offered and installing it reports the duplicate. -/
theorem C8_vacuousInstallFilter_witness :
    (∃ row, row ∈ availableServers (getCurrentServerNames
        [("dice", { command := "uvx", args := ["mcp-dice"], env := [] })]) ∧ row.name = "dice") ∧
    (installPresetServer
      { doc := [("dice", { command := "uvx", args := ["mcp-dice"], env := [] })], backup := none }
      "dice").1 =
      { doc := [("dice", { command := "uvx", args := ["mcp-dice"], env := [] })], backup := none } ∧
    (installPresetServer
      { doc := [("dice", { command := "uvx", args := ["mcp-dice"], env := [] })], backup := none }
      "dice").2 =
      InstallStep.completed (Report.failure "Installation Failed"
        ("Server " ++ "dice" ++ " already exists")) :=
  C8_vacuousInstallFilter.2.2
    { doc := [("dice", { command := "uvx", args := ["mcp-dice"], env := [] })], backup := none }
    { command := "uvx", args := ["mcp-dice"], env := [] } (by decide)

theorem orElseO_ite (c : Prop) [Decidable c] (v : String) (x : Option String) :
    orElseO (if c then some v else none) x = if c then some v else x := by
  split <;> simp [orElseO]

theorem lookupA_map_setKey (k v kq : String) :
    ∀ acc : List (String × String),
    lookupA (acc.map (fun p => if p.1 = k then (k, v) else p)) kq =
    (lookupA acc kq).map (fun w => if kq = k then v else w) := by
  intro acc
  induction acc with
  | nil => rfl
  | cons p rest ih =>
    by_cases hpk : p.1 = k <;> by_cases hpq : p.1 = kq
    · subst hpk; subst hpq
      simp [lookupA]
    · subst hpk
      simp [lookupA, hpq, ih]
    · subst hpq
      simp [lookupA, hpk, fun he : p.1 = k => hpk he]
    · simp [lookupA, hpk, hpq, ih]

theorem lookupA_jsAssign (acc : List (String × String)) (k v kq : String) :
    lookupA (jsAssign acc k v) kq = if k = kq then some v else lookupA acc kq := by
  rw [jsAssign]
  by_cases hs : (lookupA acc k).isSome = true
  · rw [if_pos hs, lookupA_map_setKey]
    by_cases hkq : kq = k
    · subst hkq
      obtain ⟨w, hw⟩ := Option.isSome_iff_exists.mp hs
      simp [hw]
    · rw [if_neg (fun he => hkq he.symm)]
      cases lookupA acc kq <;> simp [hkq]
  · rw [if_neg hs, lookupA_append, lookupA_singleton]
    by_cases hk : k = kq
    · subst hk
      rw [Option.not_isSome_iff_eq_none.mp (fun hc => hs hc)]
      simp [orElseO]
    · rw [if_neg hk, if_neg hk, orElseO_none]

theorem lastLookup_cons (k0 v0 kq : String) (l : List (String × String)) :
    lastLookup ((k0, v0) :: l) kq =
      orElseO (lastLookup l kq) (if k0 = kq then some v0 else none) := by
  rw [lastLookup, lastLookup, List.reverse_cons, lookupA_append, lookupA_singleton]

theorem collectEnv_foldl (kq : String) :
    ∀ (rows acc : List (String × String)),
    lookupA (List.foldl collectStep acc rows) kq =
      orElseO (lastLookup (validRows rows) kq) (lookupA acc kq) := by
  intro rows
  induction rows with
  | nil =>
    intro acc
    simp [validRows, lastLookup, lookupA, orElseO]
  | cons row rest ih =>
    intro acc
    by_cases hg : jsTrim row.1 ≠ "" ∧ jsTrim row.2 ≠ ""
    · have hstep : collectStep acc row = jsAssign acc (jsTrim row.1) (jsTrim row.2) := by
        simp only [collectStep]
        rw [if_pos hg]
      have hv : validRows (row :: rest) = (jsTrim row.1, jsTrim row.2) :: validRows rest := by
        simp only [validRows, List.filterMap_cons]
        rw [if_pos hg]
      rw [List.foldl_cons, hstep, ih, lookupA_jsAssign, hv, lastLookup_cons, orElseO_assoc,
        orElseO_ite]
    · have hstep : collectStep acc row = acc := by
        simp only [collectStep]
        rw [if_neg hg]
      have hv : validRows (row :: rest) = validRows rest := by
        simp only [validRows, List.filterMap_cons]
        rw [if_neg hg]
      rw [List.foldl_cons, hstep, hv, ih]

theorem jsAssign_preserves (acc : List (String × String)) (k v : String)
    (hk : k ≠ "") (hv : v ≠ "")
    (h : (acc.map Prod.fst).Nodup ∧ ∀ p ∈ acc, p.1 ≠ "" ∧ p.2 ≠ "") :
    ((jsAssign acc k v).map Prod.fst).Nodup ∧
      ∀ p ∈ jsAssign acc k v, p.1 ≠ "" ∧ p.2 ≠ "" := by
  rw [jsAssign]
  by_cases hs : (lookupA acc k).isSome = true
  · rw [if_pos hs]
    constructor
    · have hkeys : (acc.map (fun p => if p.1 = k then (k, v) else p)).map Prod.fst =
          acc.map Prod.fst := by
        rw [List.map_map]
        apply List.map_congr_left
        intro p _
        by_cases hp : p.1 = k <;> simp [hp]
      rw [hkeys]; exact h.1
    · intro p hp
      obtain ⟨q, hq, rfl⟩ := List.mem_map.mp hp
      by_cases hqk : q.1 = k
      · simpa [hqk] using ⟨hk, hv⟩
      · simpa [hqk] using h.2 q hq
  · rw [if_neg hs]
    have hnone : lookupA acc k = none := Option.not_isSome_iff_eq_none.mp (fun hc => hs hc)
    constructor
    · rw [List.map_append]
      refine List.nodup_append.mpr ⟨h.1, by simp, ?_⟩
      intro a ha hb
      simp at hb
      obtain ⟨q, hq, hqe⟩ := List.mem_map.mp ha
      exact (lookupA_eq_none_iff acc k).mp hnone q hq (hqe.trans hb)
    · intro p hp
      rcases List.mem_append.mp hp with h1 | h1
      · exact h.2 p h1
      · simp at h1
        rw [h1]
        exact ⟨hk, hv⟩

theorem collectEnv_invariant :
    ∀ (rows acc : List (String × String)),
    ((acc.map Prod.fst).Nodup ∧ ∀ p ∈ acc, p.1 ≠ "" ∧ p.2 ≠ "") →
    (((List.foldl collectStep acc rows).map Prod.fst).Nodup ∧
      ∀ p ∈ List.foldl collectStep acc rows, p.1 ≠ "" ∧ p.2 ≠ "") := by
  intro rows
  induction rows with
  | nil => intro acc h; exact h
  | cons row rest ih =>
    intro acc h
    rw [List.foldl_cons]
    by_cases hg : jsTrim row.1 ≠ "" ∧ jsTrim row.2 ≠ ""
    · have hstep : collectStep acc row = jsAssign acc (jsTrim row.1) (jsTrim row.2) := by
        simp only [collectStep]
        rw [if_pos hg]
      rw [hstep]
      exact ih _ (jsAssign_preserves acc _ _ hg.1 hg.2 h)
    · have hstep : collectStep acc row = acc := by
        simp only [collectStep]
        rw [if_neg hg]
      rw [hstep]
      exact ih _ h

/-- C10: collecting environment variables from the edit form drops every row
whose trimmed key or trimmed value is empty (in particular a variable edited
to an empty value is dropped, not saved as empty), the last of two rows
sharing a trimmed key wins, and the resulting map has unique keys and no
empty keys or values. -/
theorem C10_envCollection :
    (∀ rows kq, lookupA (collectEnv rows) kq = lastLookup (validRows rows) kq) ∧
    (∀ rows, ((collectEnv rows).map Prod.fst).Nodup) ∧
    (∀ rows p, p ∈ collectEnv rows → p.1 ≠ "" ∧ p.2 ≠ "") ∧
    collectEnv [("K", "")] = [] ∧
    lookupA (collectEnv [("A", "1"), ("A", "2")]) "A" = some "2" := by
  refine ⟨?_, ?_, ?_, by decide, by decide⟩
  · intro rows kq
    rw [collectEnv, collectEnv_foldl]
    exact orElseO_none _
  · intro rows
    exact (collectEnv_invariant rows [] ⟨List.nodup_nil, by simp⟩).1
  · intro rows p hp
    exact (collectEnv_invariant rows [] ⟨List.nodup_nil, by simp⟩).2 p hp

/-- Witness for C10 at a concrete row list containing a retrim, an emptied
value, an empty key and a duplicate key. -/
theorem C10_envCollection_witness :
    lookupA (collectEnv [("A", "1"), (" A ", "2"), ("B", ""), ("", "x"), ("A", "3")]) "A" =
      lastLookup (validRows [("A", "1"), (" A ", "2"), ("B", ""), ("", "x"), ("A", "3")]) "A" ∧
    ("A" : String) ≠ "" ∧ ("3" : String) ≠ "" :=
  ⟨C10_envCollection.1 [("A", "1"), (" A ", "2"), ("B", ""), ("", "x"), ("A", "3")] "A",
   C10_envCollection.2.2.1 [("A", "1"), (" A ", "2"), ("B", ""), ("", "x"), ("A", "3")]
     ("A", "3") (by decide)⟩

theorem splitSpaceL_ne_nil : ∀ l : List Char, splitSpaceL l ≠ [] := by
  intro l
  induction l with
  | nil => simp [splitSpaceL]
  | cons c rest ih =>
    rw [splitSpaceL]
    cases hs : splitSpaceL rest with
    | nil => simp
    | cons h t => by_cases hc : c = ' ' <;> simp [hc]

theorem splitSpaceL_no_space : ∀ l : List Char, (∀ c ∈ l, c ≠ ' ') → splitSpaceL l = [l] := by
  intro l
  induction l with
  | nil => intro _; rfl
  | cons c rest ih =>
    intro h
    have hih := ih (fun x hx => h x (List.mem_cons_of_mem _ hx))
    have hc : c ≠ ' ' := h c (List.mem_cons_self _ _)
    rw [splitSpaceL, hih]
    simp [hc]

theorem splitSpaceL_append : ∀ (a s : List Char), (∀ c ∈ a, c ≠ ' ') →
    splitSpaceL (a ++ ' ' :: s) = a :: splitSpaceL s := by
  intro a
  induction a with
  | nil =>
    intro s _
    rw [List.nil_append, splitSpaceL]
    cases hs : splitSpaceL s with
    | nil => exact absurd hs (splitSpaceL_ne_nil s)
    | cons h t => simp
  | cons c a ih =>
    intro s h
    have hih := ih s (fun x hx => h x (List.mem_cons_of_mem _ hx))
    have hc : c ≠ ' ' := h c (List.mem_cons_self _ _)
    rw [List.cons_append, splitSpaceL, hih]
    simp [hc]

theorem joinSpaceL_ne_nil : ∀ ls : List (List Char), ls ≠ [] → (∀ l ∈ ls, l ≠ []) →
    joinSpaceL ls ≠ [] := by
  intro ls hne h
  cases ls with
  | nil => exact absurd rfl hne
  | cons a t =>
    cases t with
    | nil => simpa [joinSpaceL] using h a (by simp)
    | cons b t2 => simp [joinSpaceL]

theorem splitSpaceL_joinSpaceL : ∀ ls : List (List Char),
    (∀ l ∈ ls, ∀ c ∈ l, c ≠ ' ') → ls ≠ [] → splitSpaceL (joinSpaceL ls) = ls := by
  intro ls
  induction ls with
  | nil => intro _ hne; exact absurd rfl hne
  | cons a t ih =>
    intro h _
    cases t with
    | nil =>
      rw [joinSpaceL]
      exact splitSpaceL_no_space a (h a (by simp))
    | cons b t2 =>
      rw [joinSpaceL, splitSpaceL_append a _ (h a (by simp)),
        ih (fun l hl => h l (List.mem_cons_of_mem _ hl)) (by simp)]

theorem dropWhile_eq_self_of_head (l : List Char)
    (h : ∀ c, l.head? = some c → isJsWhitespace c = false) :
    l.dropWhile isJsWhitespace = l := by
  cases l with
  | nil => rfl
  | cons c t =>
    rw [List.dropWhile_cons, h c rfl]
    simp

theorem jsTrimL_eq_self (l : List Char)
    (h1 : ∀ c, l.head? = some c → isJsWhitespace c = false)
    (h2 : ∀ c, l.reverse.head? = some c → isJsWhitespace c = false) :
    jsTrimL l = l := by
  rw [jsTrimL, dropWhile_eq_self_of_head l h1, dropWhile_eq_self_of_head l.reverse h2,
    List.reverse_reverse]

theorem head?_append_left (x y : List Char) (h : x ≠ []) : (x ++ y).head? = x.head? := by
  cases x with
  | nil => exact absurd rfl h
  | cons c t => rfl

theorem joinSpaceL_head? (a : List Char) (t : List (List Char)) (ha : a ≠ []) :
    (joinSpaceL (a :: t)).head? = a.head? := by
  cases t with
  | nil => rfl
  | cons b t2 =>
    rw [joinSpaceL]
    exact head?_append_left a _ ha

theorem joinSpaceL_reverse_head : ∀ ls : List (List Char),
    (∀ l ∈ ls, l ≠ [] ∧ ∀ c ∈ l, isJsWhitespace c = false) →
    ∀ c, (joinSpaceL ls).reverse.head? = some c → isJsWhitespace c = false := by
  intro ls
  induction ls with
  | nil => intro _ c hc; simp [joinSpaceL] at hc
  | cons a t ih =>
    intro h c hc
    cases t with
    | nil =>
      rw [joinSpaceL] at hc
      have hmem : c ∈ a := by
        cases hr : a.reverse with
        | nil => rw [hr] at hc; simp at hc
        | cons d t2 =>
          rw [hr] at hc
          simp at hc
          have : d ∈ a.reverse := by rw [hr]; exact List.mem_cons_self _ _
          rw [← hc]
          exact List.mem_reverse.mp this
      exact (h a (by simp)).2 c hmem
    | cons b t2 =>
      rw [joinSpaceL, List.reverse_append, List.reverse_cons] at hc
      have hJ : joinSpaceL (b :: t2) ≠ [] :=
        joinSpaceL_ne_nil (b :: t2) (by simp) (fun l hl => (h l (List.mem_cons_of_mem _ hl)).1)
      have hJr : (joinSpaceL (b :: t2)).reverse ≠ [] := by
        simpa using hJ
      rw [head?_append_left _ _ (by simp), head?_append_left _ _ hJr] at hc
      exact ih (fun l hl => h l (List.mem_cons_of_mem _ hl)) c hc

theorem parseArgsL_joinSpaceL (ls : List (List Char))
    (h : ∀ l ∈ ls, l ≠ [] ∧ ∀ c ∈ l, isJsWhitespace c = false) :
    parseArgsL (joinSpaceL ls) = ls := by
  cases ls with
  | nil => rfl
  | cons a t =>
    have hne : joinSpaceL (a :: t) ≠ [] :=
      joinSpaceL_ne_nil (a :: t) (by simp) (fun l hl => (h l hl).1)
    have htrim : jsTrimL (joinSpaceL (a :: t)) = joinSpaceL (a :: t) := by
      apply jsTrimL_eq_self
      · intro c hc
        rw [joinSpaceL_head? a t (h a (by simp)).1] at hc
        have hmem : c ∈ a := by
          cases ha : a with
          | nil => rw [ha] at hc; simp at hc
          | cons d t2 =>
            rw [ha] at hc
            simp at hc
            rw [← hc]
            exact List.mem_cons_self _ _
        exact (h a (by simp)).2 c hmem
      · exact joinSpaceL_reverse_head (a :: t) h
    have hnosp : ∀ l ∈ a :: t, ∀ c ∈ l, c ≠ ' ' := by
      intro l hl c hcl he
      have hws := (h l hl).2 c hcl
      rw [he] at hws
      exact absurd hws (by decide)
    simp only [parseArgsL]
    rw [htrim, if_neg hne, splitSpaceL_joinSpaceL (a :: t) hnosp (by simp)]
    apply List.filter_eq_self.mpr
    intro l hl
    exact decide_eq_true (List.length_pos.mpr (h l hl).1)

theorem parseArgs_joinSpace (args : List String)
    (h : ∀ a ∈ args, a ≠ "" ∧ ∀ c ∈ a.data, isJsWhitespace c = false) :
    parseArgs (joinSpace args) = args := by
  rw [parseArgs, joinSpace]
  rw [show (String.mk (joinSpaceL (args.map String.data))).data =
    joinSpaceL (args.map String.data) from rfl]
  rw [parseArgsL_joinSpaceL (args.map String.data) ?hcond]
  case hcond =>
    intro l hl
    obtain ⟨a, ha, rfl⟩ := List.mem_map.mp hl
    obtain ⟨h1, h2⟩ := h a ha
    refine ⟨fun hd => h1 ?_, h2⟩
    exact congrArg String.mk hd
  rw [List.map_map]
  have hid : ∀ a ∈ args, (String.mk ∘ String.data) a = id a := fun a _ => rfl
  rw [List.map_congr_left hid, List.map_id]

/-- Counterexample to C9 as stated: the one-element argument list holding a
single tab is non-empty and contains no space character, yet displaying it
(join) and resubmitting (trim, split, filter) yields the empty list, because
`trim` removes tab characters before the split. -/
theorem C9_argsRoundTrip_counterexample :
    ("\t" : String) ≠ "" ∧
    ("\t" : String).data.all (fun c => !(c == ' ')) = true ∧
    parseArgs (joinSpace ["\t"]) = [] ∧
    parseArgs (joinSpace ["\t"]) ≠ ["\t"] := by
  decide

/-- C9 (amended): the form round-trips every argument list whose elements are
non-empty and contain no JavaScript-whitespace character (anything `trim`
removes, not merely the space character); an argument containing a space is
split into several arguments on resubmission, so such lists do not
round-trip. -/
theorem C9_argsRoundTrip :
    (∀ args : List String,
      (∀ a ∈ args, a ≠ "" ∧ ∀ c ∈ a.data, isJsWhitespace c = false) →
      parseArgs (joinSpace args) = args) ∧
    parseArgs (joinSpace ["a b"]) = ["a", "b"] := by
  refine ⟨fun args h => parseArgs_joinSpace args h, by decide⟩

/-- Witness for C9 at a concrete whitespace-free argument list. -/
theorem C9_argsRoundTrip_witness :
    parseArgs (joinSpace ["-y", "pkg"]) = ["-y", "pkg"] :=
  C9_argsRoundTrip.1 ["-y", "pkg"] (by decide)

end McpManager
